import Mathlib

/-!
Verification of the `unzipper` ZIP-reading module (`src/unzipper.rs`).

The development shallowly embeds the module's algorithms:

* a zip file is a byte source of known length (`ZFile`), bytes being read
  little-endian exactly as `Unzipper::get_u32` / `get_u16` do;
* `cleanPath` embeds `Unzipper::clean_file_path` (paths are byte strings,
  `'/'` = 47, `'.'` = 46);
* `locateEocd` embeds the end-of-central-directory search of
  `Unzipper::open` (direct 22-byte tail read, then the backward scan in
  steps of 22 bytes with 27-byte windows);
* `buildIndex` / `walkDir` embed the central-directory walk of
  `Unzipper::open`;
* `openFileEntry`, `getFile` and `deflateLoop` embed `Unzipper::open_file`,
  `Unzipper::get_file` and its chunked DEFLATE loop; the external
  `miniz_oxide::inflate` step is an oracle parameter returning a status and
  the bytes it writes (clamped to the available output space, which the
  real backend guarantees).

Places where the Rust would panic in a checked build, or perform an
out-of-bounds access through an unchecked slice or raw-pointer read, are
modelled by an explicit `crash` outcome, kept separate from the `Err`
values the code returns deliberately.
-/

/-- A zip file: a byte source of known total length.  `data i` is the byte
at offset `i`; reads go through `zbyte`, which reduces values into the
byte range. -/
structure ZFile where
  len : Nat
  data : Nat → Nat

/-- Byte at offset `i` of the file (bytes are 8-bit). -/
def zbyte (f : ZFile) (i : Nat) : Nat := f.data i % 256

/-- Build a `ZFile` from a concrete list of bytes. -/
def mkFile (l : List Nat) : ZFile := ⟨l.length, fun i => l.getD i 0⟩

/-- The `n` consecutive bytes of `f` starting at `pos` (what a successful
`get_data` call deposits in its buffer). -/
def readBytes (f : ZFile) (pos n : Nat) : List Nat :=
  (List.range n).map (fun i => zbyte f (pos + i))

/-- Embeds `Unzipper::get_u32`: little-endian u32 of a 4-byte slice, a
slice of any other length silently defaulting to `0`. -/
def getU32 (l : List Nat) : Nat :=
  if l.length = 4 then
    l.getD 0 0 + 256 * l.getD 1 0 + 65536 * l.getD 2 0 + 16777216 * l.getD 3 0
  else 0

/-- Embeds `Unzipper::get_u16`: little-endian u16 of a 2-byte slice, a
slice of any other length silently defaulting to `0`. -/
def getU16 (l : List Nat) : Nat :=
  if l.length = 2 then l.getD 0 0 + 256 * l.getD 1 0 else 0

/-- Little-endian u32 read directly from the file at `pos` (the
`get_u32(&buff[0..4])` pattern applied to a buffer filled at `pos`). -/
def u32At (f : ZFile) (pos : Nat) : Nat := getU32 (readBytes f pos 4)

/-- Little-endian u16 read directly from the file at `pos`. -/
def u16At (f : ZFile) (pos : Nat) : Nat := getU16 (readBytes f pos 2)

/-- The end-of-central-directory signature `0x06054b50`. -/
def EOCD_SIG : Nat := 101010256

/-- The central-directory file-header signature `0x02014b50`. -/
def DIR_SIG : Nat := 33639248

/-- The local file-header signature `0x04034b50`. -/
def LOC_SIG : Nat := 67324752

/-- The byte-wise signature test performed by
`buff.windows(4).position(|w| w == b"PK\x05\x06")` at one position. -/
def sigBytesAt (f : ZFile) (q : Nat) : Bool :=
  (zbyte f q == 80) && (zbyte f (q + 1) == 75) &&
  (zbyte f (q + 2) == 5) && (zbyte f (q + 3) == 6)

/-! Path normalization (`Unzipper::clean_file_path`).

Paths are byte strings; `47` is `'/'`, `46` is `'.'`.  The Rust splits the
string on `'/'`, skips empty and `"."` segments, pops the accumulated
vector on `".."`, rejoins with `'/'`, and re-prefixes a leading `'/'`. -/

/-- Embeds `path.split('/')` on byte strings: `""` yields `[""]`,
separators produce empty segments on either side. -/
def splitSlash : List Nat → List (List Nat)
  | [] => [[]]
  | c :: rest =>
    if c = 47 then [] :: splitSlash rest
    else
      match splitSlash rest with
      | s :: ss => (c :: s) :: ss
      | [] => [[c]]

/-- Embeds `parts.join("/")`: intercalate a single `'/'`. -/
def joinSlash : List (List Nat) → List Nat
  | [] => []
  | [s] => s
  | s :: rest => s ++ 47 :: joinSlash rest

/-- Embeds the segment loop of `clean_file_path`.  The accumulator keeps
the pushed segments in reverse, so `Vec::push` is cons and `Vec::pop` is
tail (a pop on the empty vector is a no-op, as in the Rust). -/
def cleanSegsAux : List (List Nat) → List (List Nat) → List (List Nat)
  | acc, [] => acc.reverse
  | acc, s :: rest =>
    if s = [] ∨ s = [46] then cleanSegsAux acc rest
    else if s = [46, 46] then cleanSegsAux acc.tail rest
    else cleanSegsAux (s :: acc) rest

/-- Embeds `Unzipper::clean_file_path`. -/
def cleanPath (p : List Nat) : List Nat :=
  let cleaned := joinSlash (cleanSegsAux [] (splitSlash p))
  if p.head? = some 47 then 47 :: cleaned else cleaned


/-! Directory locator (`Unzipper::open`, lines 284-357). -/

/-- Outcome of the backward scan loop of `Unzipper::open`.  `crash` marks
the `ecd_offset -= FILE_CENTRAL_SIZE` usize underflow a checked build
panics on. -/
inductive ScanRes where
  | found (o : Nat)
  | notFound
  | readFail
  | crash
  deriving DecidableEq, Repr

/-- Position of the first EOCD signature inside the 27-byte window read at
`s` (`buff.windows(4).position(...)` over a 27-byte buffer has 24
windows). -/
def firstSig (f : ZFile) (s : Nat) : Option Nat :=
  (List.range 24).find? (fun p => sigBytesAt f (s + p))

/-- Embeds the `while !found && (ecd_offset > end_offset)` scan loop.  Each
iteration reads the 27-byte window at `s` (failing like `read_exact` if it
extends past the file), tests the window head as u32, then searches the
window bytes; on a hit at relative position `p` the Rust re-reads 22 bytes
at `s + p` (failing if that read overruns the file).  Otherwise
`ecd_offset` drops by 22, a usize underflow when `s < 22`. -/
def scanLoop (f : ZFile) (endOff : Nat) (s : Nat) : ScanRes :=
  if s ≤ endOff then .notFound
  else if f.len < s + 27 then .readFail
  else if u32At f s = EOCD_SIG then .found s
  else
    match firstSig f s with
    | some p => if s + p + 22 ≤ f.len then .found (s + p) else .readFail
    | none => if s < 22 then .crash else scanLoop f endOff (s - 22)
  termination_by s
  decreasing_by omega

/-- Result of locating the end-of-central-directory record. -/
inductive LocRes where
  | ok (o : Nat)
  | tooSmall
  | notFound
  | readFail
  | crash
  deriving DecidableEq, Repr

/-- Embeds the EOCD search of `Unzipper::open`: length check, direct read
of the last 22 bytes, optional backward scan, and the final
`(ecd_offset == 0) || (signature mismatch)` rejection. -/
def locateEocd (f : ZFile) : LocRes :=
  if f.len < 22 then .tooSmall
  else
    let o0 := f.len - 22
    if u32At f o0 = EOCD_SIG then
      if o0 = 0 then .notFound else .ok o0
    else
      let endOff := if o0 > 65536 then o0 - 65536 else 0
      let s0 := if o0 ≥ 22 then o0 - 22 else 0
      match scanLoop f endOff s0 with
      | .found o => if o = 0 ∨ u32At f o ≠ EOCD_SIG then .notFound else .ok o
      | .notFound => .notFound
      | .readFail => .readFail
      | .crash => .crash

/-! Directory index builder (`Unzipper::open`, lines 359-409). -/

/-- Entry metadata kept in the index (struct `FileEntry`). -/
structure FileEntry where
  startPos : Nat
  compressedSize : Nat
  size : Nat
  method : Nat
  deriving DecidableEq, Repr

/-- The index: insertion-ordered association list standing in for the
`HashMap` (`lookupEntry` returns the most recent insertion for a key,
matching `HashMap::insert` overwrite semantics). -/
def EntryMap := List (List Nat × FileEntry)

instance : DecidableEq EntryMap := by unfold EntryMap; infer_instance

instance : Repr EntryMap := by unfold EntryMap; infer_instance

/-- Embeds `HashMap::get`. -/
def lookupEntry (m : EntryMap) (k : List Nat) : Option FileEntry :=
  match m.find? (fun kv => kv.1 == k) with
  | some kv => some kv.2
  | none => none

/-- Embeds `HashMap::insert` (later insertions shadow earlier ones). -/
def insertEntry (m : EntryMap) (k : List Nat) (v : FileEntry) : EntryMap :=
  (k, v) :: m

/-- Rust range slice `&l[a..b]`: `none` exactly when the Rust would panic
(`a > b` or `b > l.length`). -/
def sliceE (l : List Nat) (a b : Nat) : Option (List Nat) :=
  if a ≤ b ∧ b ≤ l.length then some ((l.drop a).take (b - a)) else none

/-- The `k` bytes of the captured central-directory buffer starting at `off`
(used for the fields of the raw-pointer `DirFileHeader` overlay, whose
bytes are all in bounds whenever the overlay itself is). -/
def fieldBytes (entries : List Nat) (off k : Nat) : List Nat :=
  (List.range k).map (fun i => entries.getD (off + i) 0)

/-- Outcome of opening the archive.  `crash` marks a panic or an
out-of-bounds unchecked access. -/
inductive ORes where
  | ok (m : EntryMap)
  | tooSmall
  | eocdNotFound
  | cdNotFound
  | badDirSig
  | readFail
  | crash
  deriving DecidableEq, Repr

/-- Embeds the `while num_entries > 0` walk over the captured
central-directory bytes.  The raw-pointer `DirFileHeader` overlay at
`off` is an unchecked 46-byte read (`crash` when it overruns the
buffer), and the name slice `&entries[start..end]` panics likewise when
it overruns.  Field offsets follow the packed struct layout: method 10,
compressed size 20, uncompressed size 24, name length 28, extra length
30, comment length 32, header offset 42. -/
def walkDir (entries : List Nat) : Nat → Nat → EntryMap → ORes
  | 0, _, acc => .ok acc
  | n + 1, off, acc =>
    if entries.length < off + 46 then .crash
    else if getU32 (fieldBytes entries off 4) ≠ DIR_SIG then .badDirSig
    else
      let nameLen := getU16 (fieldBytes entries (off + 28) 2)
      let extraLen := getU16 (fieldBytes entries (off + 30) 2)
      let commentLen := getU16 (fieldBytes entries (off + 32) 2)
      match sliceE entries (off + 46) (off + 46 + nameLen) with
      | none => .crash
      | some nameBytes =>
        let fe : FileEntry :=
          { startPos := getU32 (fieldBytes entries (off + 42) 4)
            compressedSize := getU32 (fieldBytes entries (off + 20) 4)
            size := getU32 (fieldBytes entries (off + 24) 4)
            method := getU16 (fieldBytes entries (off + 10) 2) }
        walkDir entries n (off + 46 + nameLen + extraLen + commentLen)
          (insertEntry acc (cleanPath nameBytes) fe)

/-- Embeds lines 359-409 of `Unzipper::open`: compute
`entries_total_size = ecd_offset - start_offset` (usize underflow, and in
release a `vec![0; _]` capacity overflow, when `start > o`: `crash`),
read that many bytes at `start`, check the first central-directory
signature through `&entries[0..4]` (a panic on a shorter capture), then
walk the declared number of records. -/
def buildIndex (f : ZFile) (o start num : Nat) : ORes :=
  if start > o then .crash
  else
    let total := o - start
    if f.len < start + total then .readFail
    else
      let entries := readBytes f start total
      match sliceE entries 0 4 with
      | none => .crash
      | some sig4 =>
        if getU32 sig4 ≠ DIR_SIG then .cdNotFound
        else walkDir entries num 0 []

/-- Embeds `Unzipper::open` end to end on a byte source: locate the EOCD,
decode `start_offset` (EOCD bytes 16..20) and the total entry count
(EOCD bytes 10..12), and build the index. -/
def openArch (f : ZFile) : ORes :=
  match locateEocd f with
  | .ok o => buildIndex f o (u32At f (o + 16)) (u16At f (o + 10))
  | .tooSmall => .tooSmall
  | .notFound => .eocdNotFound
  | .readFail => .readFail
  | .crash => .crash

/-! Entry extractor (`Unzipper::open_file`, `get_file`, lines 437-616). -/

/-- The parsed local file header (struct `FileHeader`, 30 packed bytes:
signature 0, extract-version 4, flags 6, method 8, time 10, date 12,
crc 14, compressed size 18, uncompressed size 22, name length 26, extra
length 28). -/
structure LocalHeader where
  signature : Nat
  extractVersion : Nat
  flags : Nat
  method : Nat
  modTime : Nat
  modDate : Nat
  crc32 : Nat
  compressedSize : Nat
  uncompressedSize : Nat
  nameLen : Nat
  extraLen : Nat
  deriving DecidableEq, Repr

/-- Decode the 30-byte local header buffer (the struct overlay at line
462-463, little-endian). -/
def decodeLocalHeader (b : List Nat) : LocalHeader :=
  { signature := getU32 (fieldBytes b 0 4)
    extractVersion := getU16 (fieldBytes b 4 2)
    flags := getU16 (fieldBytes b 6 2)
    method := getU16 (fieldBytes b 8 2)
    modTime := getU16 (fieldBytes b 10 2)
    modDate := getU16 (fieldBytes b 12 2)
    crc32 := getU32 (fieldBytes b 14 4)
    compressedSize := getU32 (fieldBytes b 18 4)
    uncompressedSize := getU32 (fieldBytes b 22 4)
    nameLen := getU16 (fieldBytes b 26 2)
    extraLen := getU16 (fieldBytes b 28 2) }

/-- The archive handle (struct `Unzipper`): the open byte source, the
index, and the transient current-entry state. -/
structure Handle where
  file : ZFile
  entries : EntryMap
  currentEntry : Option FileEntry
  currentHeader : Option LocalHeader

/-- Embeds `Unzipper::close_file`. -/
def closeFile (h : Handle) : Handle :=
  { h with currentEntry := none, currentHeader := none }

/-- Embeds `Unzipper::file_exists` (`contains`). -/
def fileExists (h : Handle) (p : List Nat) : Bool :=
  (lookupEntry h.entries (cleanPath p)).isSome

/-- Errors `get_file` / `open_file` return (distinguished by the message
and kind the Rust attaches). -/
inductive GErr where
  | fileNotFound (p : List Nat)
  | fileEntryNotFound
  | fileHeaderNotFound
  | badLocalSig (s : Nat)
  | unsupportedMethod (m : Nat)
  | unsupportedDispatch
  | decompressionFailed
  | readFail
  deriving DecidableEq, Repr

/-- Embeds `Unzipper::open_file`: normalize, look up, read and decode the
30-byte local header at `start_pos`, check signature then method.  The
first component is `none` on success, mirroring `Result<(), Error>`. -/
def openFileEntry (h : Handle) (p : List Nat) : Option GErr × Handle :=
  let cp := cleanPath p
  match lookupEntry h.entries cp with
  | some fe =>
    let h1 := { h with currentEntry := some fe }
    if h.file.len < fe.startPos + 30 then (some .readFail, h1)
    else
      let hdr := decodeLocalHeader (readBytes h.file fe.startPos 30)
      let h2 := { h1 with currentHeader := some hdr }
      if hdr.signature ≠ LOC_SIG then (some (.badLocalSig hdr.signature), closeFile h2)
      else if hdr.method ≠ 0 ∧ hdr.method ≠ 8 then
        (some (.unsupportedMethod hdr.method), closeFile h2)
      else (none, h2)
  | none => (some (.fileNotFound cp), closeFile h)

/-- One `inflate` step of the external backend: a status and the bytes the
step writes into the output suffix it was handed. -/
structure InfRes where
  ok : Bool
  written : List Nat

/-- The external decompression backend
(`inflate(state, input_chunk, output_suffix, flush)`), abstracted: it sees
the compressed chunk, the available output space, and the finish hint.
The persistent `InflateState` is part of the oracle closure. -/
def Oracle := List Nat → Nat → Bool → InfRes

/-- Splice the step's written bytes into the output buffer at `pos`,
truncated to the available space (the backend never writes past the
suffix it was handed); the buffer keeps its length. -/
def writeAt (out : List Nat) (pos : Nat) (w : List Nat) : List Nat :=
  out.take pos ++ w.take (out.length - pos) ++ out.drop (pos + w.length)

/-- One compressed-data read performed by the DEFLATE loop: file position,
chunk byte count, and the finish-flush hint passed to the `inflate` step
fed with this chunk. -/
structure ROp where
  pos : Nat
  len : Nat
  finish : Bool
  deriving DecidableEq, Repr

/-- Outcome of the DEFLATE loop, carrying the trace of compressed-data
reads it performed. -/
inductive DOut where
  | ok (out : List Nat) (tr : List ROp)
  | err (e : GErr) (tr : List ROp)
  | crash (tr : List ROp)
  deriving DecidableEq, Repr

/-- Embeds the `while compressed_size > 0` loop of `get_file` (lines
581-604): chunk is `min(BUFFER_SIZE, compressed_size)`, the chunk is read
at `data_offset + output_pos`, the inflate step is fed the chunk and the
unfilled output suffix with `MZFlush::Finish` exactly when
`compressed_size <= BUFFER_SIZE`, `output_pos` advances by the step's
bytes-written and `compressed_size` drops by the chunk size.  Slicing
`output[output_pos..]` would panic if the cursor passed the buffer end
(`crash`). -/
def deflateLoop (orc : Oracle) (f : ZFile) (dOff : Nat) :
    Nat → List Nat → Nat → List ROp → DOut
  | remaining, out, outPos, tr =>
    if h : remaining = 0 then .ok out tr
    else
      let chunk := min 16384 remaining
      let pos := dOff + outPos
      if f.len < pos + chunk then .err .readFail tr
      else
        let tr1 := tr ++ [⟨pos, chunk, remaining ≤ 16384⟩]
        if out.length < outPos then .crash tr1
        else
          let res := orc (readBytes f pos chunk) (out.length - outPos) (remaining ≤ 16384)
          if res.ok then
            let bw := min res.written.length (out.length - outPos)
            deflateLoop orc f dOff (remaining - chunk) (writeAt out outPos res.written)
              (outPos + bw) tr1
          else .err .decompressionFailed tr1
  termination_by remaining => remaining
  decreasing_by omega

/-- Result of `get_file`. -/
inductive GRes where
  | ok (bytes : List Nat)
  | err (e : GErr)
  | crash
  deriving DecidableEq, Repr

/-- Embeds `Unzipper::get_file`: open the entry, compute the payload
offset from the local header's variable lengths, allocate the output
buffer of `size` zero bytes, then dispatch on the central-directory
method: `0` copies `size` bytes from the payload offset, `8` runs the
chunked DEFLATE loop, anything else is the unsupported-method error. -/
def getFile (h : Handle) (p : List Nat) (orc : Oracle) : GRes × Handle :=
  match openFileEntry h p with
  | (some e, h1) => (.err e, h1)
  | (none, h1) =>
    match h1.currentEntry with
    | none => (.err .fileEntryNotFound, h1)
    | some fe =>
      match h1.currentHeader with
      | none => (.err .fileHeaderNotFound, h1)
      | some fh =>
        let dataOffset := fe.startPos + 30 + fh.nameLen + fh.extraLen
        if fe.method = 0 then
          if h1.file.len < dataOffset + fe.size then (.err .readFail, h1)
          else (.ok (readBytes h1.file dataOffset fe.size), closeFile h1)
        else if fe.method = 8 then
          match deflateLoop orc h1.file dataOffset fe.compressedSize
              (List.replicate fe.size 0) 0 [] with
          | .ok out _ => (.ok out, closeFile h1)
          | .err e _ => (.err e, h1)
          | .crash _ => (.crash, h1)
        else (.err .unsupportedDispatch, h1)

/-! Auxiliary notions and concrete archives used by the statements below. -/

/-- A segment shape the cleaning loop can emit: nonempty, not the current
directory, not the parent marker, slash-free. -/
def GoodSeg (s : List Nat) : Prop :=
  s ≠ [] ∧ s ≠ [46] ∧ s ≠ [46, 46] ∧ 47 ∉ s

/-- One public call against an open archive handle. -/
inductive ArchOp where
  | contains (p : List Nat)
  | extract (p : List Nat) (orc : Oracle)

/-- Handle state after one call: `file_exists` borrows the handle
immutably; `get_file` threads the mutated handle. -/
def stepOp (h : Handle) : ArchOp → Handle
  | .contains _ => h
  | .extract p orc => (getFile h p orc).2

/-- Handle state after a sequence of calls. -/
def runOps (h : Handle) (ops : List ArchOp) : Handle :=
  ops.foldl stepOp h

/-- An inflate oracle whose steps always succeed writing nothing (a legal
backend answer while it accumulates bitstream state). -/
def orcNull : Oracle := fun _ _ _ => ⟨true, []⟩

/-- A 23-byte archive: a valid empty-archive EOCD record at offset 0
declaring a 1-byte trailing comment, followed by that comment byte. -/
def c2file : ZFile :=
  mkFile ([80, 75, 5, 6] ++ List.replicate 12 0 ++ [0, 0, 0, 0] ++ [1, 0] ++ [170])

/-- A 65580-byte all-zero file: the EOCD signature occurs nowhere. -/
def zeroFile : ZFile := ⟨65580, fun _ => 0⟩

/-- The 22-byte file that is exactly a valid empty-archive EOCD record
(signature at offset 0). -/
def eocdOnly : ZFile := mkFile ([80, 75, 5, 6] ++ List.replicate 18 0)

/-- A 23-byte archive whose EOCD record sits at offset 1, no comment. -/
def eocdAt1 : ZFile := mkFile ([0, 80, 75, 5, 6] ++ List.replicate 18 0)

/-- A 5-byte file, shorter than an EOCD record. -/
def tinyFile : ZFile := mkFile [1, 2, 3, 4, 5]

/-- A 23-byte archive whose EOCD (at offset 1) declares the
central-directory start offset 1 — equal to the EOCD offset, so the
captured directory range is empty. -/
def c4file : ZFile :=
  mkFile ([0] ++ [80, 75, 5, 6] ++ List.replicate 12 0 ++ [1, 0, 0, 0] ++ [0, 0])

/-- A 26-byte archive: 4 bytes of central-directory signature at offset 0,
then an EOCD at offset 4 declaring 1 entry and directory start 0 — the
declared entry overruns the 4 captured bytes. -/
def c6file : ZFile :=
  mkFile ([80, 75, 1, 2] ++ [80, 75, 5, 6] ++ List.replicate 6 0 ++ [1, 0]
    ++ [0, 0, 0, 0] ++ [0, 0, 0, 0] ++ [0, 0])

/-- A 5-byte captured-range host: central-directory signature plus one
spare byte, for exercising the directory walk directly. -/
def c6wFile : ZFile := mkFile [80, 75, 1, 2, 9]

/-- A 26-byte archive: 4 bytes of valid central-directory signature at
offset 0, EOCD at offset 4 declaring 0 entries, directory start 0, and a
central-directory size field of 2 — inconsistent with the 4-byte span up
to the EOCD. -/
def c3fileA : ZFile :=
  mkFile ([80, 75, 1, 2] ++ [80, 75, 5, 6] ++ List.replicate 6 0 ++ [0, 0]
    ++ [2, 0, 0, 0] ++ [0, 0, 0, 0] ++ [0, 0])

/-- `c3fileA` with its byte at offset 3 corrupted — a change beyond the
declared 2-byte directory size but below the EOCD offset. -/
def c3fileB : ZFile :=
  mkFile ([80, 75, 1, 3] ++ [80, 75, 5, 6] ++ List.replicate 6 0 ++ [0, 0]
    ++ [2, 0, 0, 0] ++ [0, 0, 0, 0] ++ [0, 0])

/-- `c3fileA` with its byte at offset 24 (inside the EOCD comment-length
field, past the directory range) altered. -/
def c3fileC : ZFile :=
  mkFile ([80, 75, 1, 2] ++ [80, 75, 5, 6] ++ List.replicate 6 0 ++ [0, 0]
    ++ [2, 0, 0, 0] ++ [0, 0, 0, 0] ++ [5, 0])

/-- A 32-byte archive body for a stored entry: a valid 30-byte local
header at offset 0 (method 0, no name, no extra field) followed by the
2-byte payload `[7, 9]`. -/
def c5file : ZFile := mkFile ([80, 75, 3, 4] ++ List.replicate 26 0 ++ [7, 9])

/-- Index metadata claiming `compressed_size = 3` but `size = 2` for the
stored entry of `c5file`. -/
def c5entry : FileEntry := ⟨0, 3, 2, 0⟩

/-- A handle over `c5file` whose index maps the path `"a"` to the
mismatched stored entry. -/
def c5handle : Handle := ⟨c5file, [([97], c5entry)], none, none⟩

/-- A 20000-byte all-zero byte source hosting a compressed payload bigger
than one 16 KiB chunk. -/
def bigFile : ZFile := ⟨20000, fun _ => 0⟩

/-! Facts about path normalization. -/

/-- The splitter never returns an empty list of segments. -/
theorem splitSlash_ne_nil (p : List Nat) : splitSlash p ≠ [] := by
  induction p with
  | nil => simp [splitSlash]
  | cons c rest ih =>
    simp only [splitSlash]
    split
    · simp
    · cases h : splitSlash rest with
      | nil => simp
      | cons s ss => simp

/-- Segments produced by splitting on the slash are slash-free. -/
theorem mem_splitSlash_no_slash (p : List Nat) :
    ∀ s ∈ splitSlash p, 47 ∉ s := by
  induction p with
  | nil =>
    intro s hs
    simp only [splitSlash, List.mem_singleton] at hs
    subst hs; simp
  | cons c rest ih =>
    intro s hs
    simp only [splitSlash] at hs
    by_cases hc : c = 47
    · rw [if_pos hc] at hs
      rcases List.mem_cons.mp hs with h | h
      · subst h; simp
      · exact ih s h
    · rw [if_neg hc] at hs
      cases h : splitSlash rest with
      | nil =>
        rw [h] at hs; simp at hs; subst hs
        intro hmem
        exact hc ((List.mem_singleton.mp hmem).symm)
      | cons t ts =>
        rw [h] at hs
        rcases List.mem_cons.mp hs with h1 | h1
        · subst h1
          intro hmem
          rcases List.mem_cons.mp hmem with h2 | h2
          · exact hc h2.symm
          · exact ih t (h ▸ List.mem_cons_self t ts) h2
        · exact ih s (h ▸ List.mem_cons_of_mem t h1)

/-- Every segment the cleaning loop accumulates is a `GoodSeg`. -/
theorem cleanSegsAux_good (l acc : List (List Nat))
    (hl : ∀ s ∈ l, 47 ∉ s) (hacc : ∀ s ∈ acc, GoodSeg s) :
    ∀ s ∈ cleanSegsAux acc l, GoodSeg s := by
  induction l generalizing acc with
  | nil =>
    intro s hs
    rw [cleanSegsAux] at hs
    exact hacc s (List.mem_reverse.mp hs)
  | cons t l ih =>
    intro s hs
    rw [cleanSegsAux] at hs
    by_cases h1 : t = [] ∨ t = [46]
    · rw [if_pos h1] at hs
      exact ih acc (fun u hu => hl u (List.mem_cons_of_mem t hu)) hacc s hs
    · rw [if_neg h1] at hs
      by_cases h2 : t = [46, 46]
      · rw [if_pos h2] at hs
        exact ih acc.tail (fun u hu => hl u (List.mem_cons_of_mem t hu))
          (fun u hu => hacc u (List.mem_of_mem_tail hu)) s hs
      · rw [if_neg h2] at hs
        refine ih (t :: acc) (fun u hu => hl u (List.mem_cons_of_mem t hu)) ?_ s hs
        intro u hu
        rcases List.mem_cons.mp hu with h | h
        · rw [h]
          exact ⟨fun he => h1 (Or.inl he), fun he => h1 (Or.inr he), h2,
            hl t (List.mem_cons_self t l)⟩
        · exact hacc u h

/-- On a list of `GoodSeg` segments the cleaning loop only pushes. -/
theorem cleanSegsAux_fix (l : List (List Nat)) (acc : List (List Nat))
    (hl : ∀ s ∈ l, GoodSeg s) :
    cleanSegsAux acc l = acc.reverse ++ l := by
  induction l generalizing acc with
  | nil => rw [cleanSegsAux]; simp
  | cons t l ih =>
    have hg := hl t (List.mem_cons_self t l)
    rw [cleanSegsAux, if_neg (fun h => h.elim hg.1 hg.2.1), if_neg hg.2.2.1,
      ih (t :: acc) (fun u hu => hl u (List.mem_cons_of_mem t hu))]
    simp

/-- Splitting a slash-free byte string returns it whole. -/
theorem splitSlash_of_no_slash (s : List Nat) (hs : 47 ∉ s) : splitSlash s = [s] := by
  induction s with
  | nil => rfl
  | cons c r ih =>
    have hc : c ≠ 47 := fun h => hs (h ▸ List.mem_cons_self c r)
    rw [splitSlash, if_neg hc, ih (fun h => hs (List.mem_cons_of_mem c h))]

/-- Splitting distributes over a slash that follows a slash-free chunk. -/
theorem splitSlash_append (s t : List Nat) (hs : 47 ∉ s) :
    splitSlash (s ++ 47 :: t) = s :: splitSlash t := by
  induction s with
  | nil => simp [splitSlash]
  | cons c r ih =>
    have hc : c ≠ 47 := fun h => hs (h ▸ List.mem_cons_self c r)
    rw [List.cons_append, splitSlash, if_neg hc,
      ih (fun h => hs (List.mem_cons_of_mem c h))]

/-- Splitting undoes joining for nonempty lists of nonempty slash-free
segments. -/
theorem split_join (L : List (List Nat)) (hne : L ≠ [])
    (hL : ∀ s ∈ L, s ≠ [] ∧ 47 ∉ s) :
    splitSlash (joinSlash L) = L := by
  induction L with
  | nil => exact absurd rfl hne
  | cons s L ih =>
    cases L with
    | nil =>
      simp only [joinSlash]
      exact splitSlash_of_no_slash s (hL s (List.mem_cons_self s [])).2
    | cons t L2 =>
      simp only [joinSlash]
      rw [splitSlash_append s _ (hL s (List.mem_cons_self s (t :: L2))).2,
        ih (by simp) (fun u hu => hL u (List.mem_cons_of_mem s hu))]

/-- A join headed by a nonempty slash-free segment does not start with a
slash. -/
theorem joinSlash_head (s : List Nat) (L : List (List Nat))
    (h1 : s ≠ []) (h2 : 47 ∉ s) :
    (joinSlash (s :: L)).head? ≠ some 47 := by
  cases s with
  | nil => exact absurd rfl h1
  | cons a r =>
    have ha : a ≠ 47 := fun h => h2 (h ▸ List.mem_cons_self a r)
    cases L with
    | nil => simp [joinSlash, ha]
    | cons t L2 => simp [joinSlash, ha]

/-- C8: path normalization (`clean_file_path`) is idempotent, a leading
slash on the input is preserved on the output, and the specified
equations hold: cleaning `"a/./b/../c"` gives `"a/c"` and cleaning
`"/x/../../y"` gives `"/y"` (a parent marker at the root is a clamped
no-op). -/
theorem c8_clean_path_idempotent :
    (∀ p : List Nat, cleanPath (cleanPath p) = cleanPath p) ∧
    (∀ s : List Nat, (cleanPath (47 :: s)).head? = some 47) ∧
    cleanPath [97, 47, 46, 47, 98, 47, 46, 46, 47, 99] = [97, 47, 99] ∧
    cleanPath [47, 120, 47, 46, 46, 47, 46, 46, 47, 121] = [47, 121] := by
  refine ⟨?_, ?_, by decide, by decide⟩
  · intro p
    have hgood : ∀ s ∈ cleanSegsAux [] (splitSlash p), GoodSeg s :=
      cleanSegsAux_good (splitSlash p) [] (mem_splitSlash_no_slash p)
        (by intro u hu; exact absurd hu (List.not_mem_nil u))
    cases hcase : cleanSegsAux [] (splitSlash p) with
    | nil =>
      by_cases hh : p.head? = some 47
      · have h1 : cleanPath p = [47] := by simp [cleanPath, hcase, joinSlash, hh]
        rw [h1]; decide
      · have h1 : cleanPath p = [] := by simp [cleanPath, hcase, joinSlash, hh]
        rw [h1]; decide
    | cons s rest =>
      have hGall : ∀ u ∈ s :: rest, GoodSeg u := fun u hu => hgood u (hcase ▸ hu)
      have hjs : splitSlash (joinSlash (s :: rest)) = s :: rest :=
        split_join (s :: rest) (by simp)
          (fun u hu => ⟨(hGall u hu).1, (hGall u hu).2.2.2⟩)
      by_cases hh : p.head? = some 47
      · have h1 : cleanPath p = 47 :: joinSlash (s :: rest) := by
          simp [cleanPath, hcase, hh]
        rw [h1]
        simp only [cleanPath]
        rw [show splitSlash (47 :: joinSlash (s :: rest))
            = [] :: splitSlash (joinSlash (s :: rest)) from by simp [splitSlash]]
        rw [hjs]
        rw [show cleanSegsAux [] ([] :: s :: rest) = cleanSegsAux [] (s :: rest) from by
          simp [cleanSegsAux]]
        rw [cleanSegsAux_fix (s :: rest) [] hGall]
        simp
      · have h1 : cleanPath p = joinSlash (s :: rest) := by
          simp [cleanPath, hcase, hh]
        rw [h1]
        simp only [cleanPath]
        rw [hjs, cleanSegsAux_fix (s :: rest) [] hGall]
        have hhead := joinSlash_head s rest (hGall s (List.mem_cons_self s rest)).1
          (hGall s (List.mem_cons_self s rest)).2.2.2
        simp [hhead]
  · intro s
    simp [cleanPath]

/-! Facts about the directory locator. -/

/-- The u32 signature comparison of `get_u32(&buff[0..4])` and the
byte-wise window comparison test the same property. -/
theorem u32At_eocd_iff (f : ZFile) (q : Nat) :
    u32At f q = EOCD_SIG ↔ sigBytesAt f q = true := by
  have e : u32At f q = zbyte f q + 256 * zbyte f (q + 1) + 65536 * zbyte f (q + 2)
      + 16777216 * zbyte f (q + 3) := rfl
  have b0 : zbyte f q < 256 := Nat.mod_lt _ (by norm_num)
  have b1 : zbyte f (q + 1) < 256 := Nat.mod_lt _ (by norm_num)
  have b2 : zbyte f (q + 2) < 256 := Nat.mod_lt _ (by norm_num)
  have b3 : zbyte f (q + 3) < 256 := Nat.mod_lt _ (by norm_num)
  rw [e]
  simp only [sigBytesAt, Bool.and_eq_true, beq_iff_eq, EOCD_SIG]
  omega

/-- Under the scan's lower bound, a file with no signature byte pattern
above `endOff` makes the scan loop run to exhaustion. -/
theorem scanLoop_all_miss (f : ZFile) (endOff : Nat) (hend : 22 ≤ endOff)
    (H : ∀ q, endOff < q → sigBytesAt f q = false) :
    ∀ s, s + 27 ≤ f.len → scanLoop f endOff s = .notFound := by
  intro s
  induction s using Nat.strong_induction_on with
  | _ s ih =>
    intro hs
    rw [scanLoop]
    by_cases h1 : s ≤ endOff
    · rw [if_pos h1]
    · rw [if_neg h1, if_neg (by omega)]
      have hsig : ¬ u32At f s = EOCD_SIG := by
        rw [u32At_eocd_iff]
        simp [H s (by omega)]
      rw [if_neg hsig]
      have hfs : firstSig f s = none := by
        rw [firstSig, List.find?_eq_none]
        intro p hp
        simp [H (s + p) (by omega)]
      rw [hfs]
      show (if s < 22 then ScanRes.crash else scanLoop f endOff (s - 22)) = .notFound
      rw [if_neg (show ¬ s < 22 by omega)]
      exact ih (s - 22) (by omega) (by omega)

/-- C2 counterexample: a 23-byte archive whose EOCD record (signature at
offset 0) declares a comment of length 1 — within the claimed
`0 < c ≤ 65536` bound — yet opening fails with the EOCD-not-found
error instead of locating the record. -/
theorem c2_counterexample :
    c2file.len = 23 ∧ sigBytesAt c2file 0 = true ∧ u16At c2file 20 = 1 ∧
    locateEocd c2file = .notFound := by
  refine ⟨by decide, by decide, by decide, ?_⟩
  have hlen : c2file.len = 23 := by decide
  have hsig : ¬ u32At c2file 1 = EOCD_SIG := by decide
  have hscan : scanLoop c2file 0 0 = ScanRes.notFound := by
    rw [scanLoop]
    simp
  simp only [locateEocd, hlen]
  norm_num [hsig, hscan]

/-- C2 (amended): the backward scan only ever examines offsets strictly
greater than `L - 22 - 65536`; whenever the file is large enough for that
bound to be at least 22 and the signature byte pattern occurs at no
offset above it — in particular when a comment longer than 65536 bytes
free of stray signature bytes buries the EOCD — opening fails with the
EOCD-not-found error.  (A comment length `c ≤ 65536` does not guarantee
location, per the counterexample.) -/
theorem c2_scan_bounded (f : ZFile) (hlen : 65580 ≤ f.len)
    (H : ∀ q, f.len - 65558 < q → sigBytesAt f q = false) :
    locateEocd f = .notFound := by
  have hs1 : ¬ u32At f (f.len - 22) = EOCD_SIG := by
    rw [u32At_eocd_iff]
    simp [H (f.len - 22) (by omega)]
  have hscan : scanLoop f (f.len - 22 - 65536) (f.len - 22 - 22) = .notFound :=
    scanLoop_all_miss f _ (by omega) (fun q hq => H q (by omega)) _ (by omega)
  simp only [locateEocd]
  rw [if_neg (show ¬ f.len < 22 by omega), if_neg hs1,
    if_pos (show f.len - 22 > 65536 by omega),
    if_pos (show f.len - 22 ≥ 22 by omega), hscan]

/-- C2 witness: the all-zero 65580-byte file satisfies the hypotheses of
the amended theorem, so opening it reports EOCD-not-found. -/
theorem c2_scan_bounded_witness :
    65580 ≤ zeroFile.len ∧ locateEocd zeroFile = .notFound :=
  ⟨by decide, c2_scan_bounded zeroFile (by decide) (fun q hq => rfl)⟩

/-- C7 counterexample: the 22-byte file that is exactly a valid
empty-archive EOCD record (signature matching at offset 0) is rejected
with the EOCD-not-found error rather than accepted. -/
theorem c7_counterexample :
    eocdOnly.len = 22 ∧ u32At eocdOnly 0 = EOCD_SIG ∧
    locateEocd eocdOnly = .notFound := by decide

/-- C7 (amended): when the signature matches at `L - 22` the locator
accepts that offset after the single direct tail read — provided
`L ≥ 23`; for the 22-byte file whose EOCD sits at offset 0 it instead
fails with the EOCD-not-found error, and a file shorter than 22 bytes
fails with the too-small error. -/
theorem c7_direct_locate :
    (∀ f : ZFile, 23 ≤ f.len → u32At f (f.len - 22) = EOCD_SIG →
      locateEocd f = .ok (f.len - 22)) ∧
    (∀ f : ZFile, f.len = 22 → u32At f 0 = EOCD_SIG →
      locateEocd f = .notFound) ∧
    (∀ f : ZFile, f.len < 22 → locateEocd f = .tooSmall) := by
  refine ⟨?_, ?_, ?_⟩
  · intro f hlen hsig
    simp only [locateEocd]
    rw [if_neg (show ¬ f.len < 22 by omega), if_pos hsig,
      if_neg (show ¬ f.len - 22 = 0 by omega)]
  · intro f hlen hsig
    simp only [locateEocd]
    rw [if_neg (show ¬ f.len < 22 by omega), show f.len - 22 = 0 by omega,
      if_pos hsig, if_pos rfl]
  · intro f hlen
    simp only [locateEocd]
    rw [if_pos hlen]

/-- C7 witness: the locator accepts offset 1 for the 23-byte archive with
its EOCD at offset 1, and rejects the 5-byte file as too small. -/
theorem c7_direct_locate_witness :
    locateEocd eocdAt1 = .ok 1 ∧ locateEocd tinyFile = .tooSmall :=
  ⟨c7_direct_locate.1 eocdAt1 (by decide) (by decide),
   c7_direct_locate.2.2 tinyFile (by decide)⟩

/-! Facts about the directory index builder. -/

/-- A captured byte range has the requested length. -/
theorem readBytes_length (f : ZFile) (s k : Nat) :
    (readBytes f s k).length = k := by
  simp [readBytes]

/-- Reads of ranges on which two files agree coincide. -/
theorem readBytes_congr (f g : ZFile) (s k : Nat)
    (h : ∀ i < k, zbyte f (s + i) = zbyte g (s + i)) :
    readBytes f s k = readBytes g s k := by
  simp only [readBytes]
  exact List.map_congr_left (fun i hi => h i (List.mem_range.mp hi))

/-- C3 counterexample: `c3fileA` declares a central-directory size of 2
(EOCD bytes 16..20) and start offset 0, so under the claim only bytes
0..2 would be consumed; yet corrupting byte 3 — inside the span up to the
EOCD offset 4 but past the declared size — flips the outcome of opening,
showing the read is not delimited by the declared size field. -/
theorem c3_counterexample :
    u32At c3fileA 16 = 2 ∧ u32At c3fileA 20 = 0 ∧ locateEocd c3fileA = .ok 4 ∧
    (∀ i, i < 26 → i ≠ 3 → zbyte c3fileA i = zbyte c3fileB i) ∧
    openArch c3fileA = .ok [] ∧ openArch c3fileB = .cdNotFound := by decide

/-- C3 (amended): the central-directory capture starts at the declared
start offset and extends exactly to the located EOCD offset — building
the index depends only on the file bytes in that half-open range (plus
the file length for the read-bounds check); the declared size field does
not bound the read. -/
theorem c3_build_range (f g : ZFile) (o s n : Nat) (hlen : f.len = g.len)
    (h : ∀ i < o, s ≤ i → zbyte f i = zbyte g i) :
    buildIndex f o s n = buildIndex g o s n := by
  by_cases hso : s > o
  · simp only [buildIndex]
    rw [if_pos hso, if_pos hso]
  · have hread : readBytes f s (o - s) = readBytes g s (o - s) := by
      apply readBytes_congr
      intro i hi
      exact h (s + i) (by omega) (by omega)
    simp only [buildIndex]
    rw [if_neg hso, if_neg hso, hlen, hread]

/-- C3 witness: two concrete archives agreeing on the captured range
(bytes 0..4) but differing at byte 24 build identical indexes. -/
theorem c3_build_range_witness :
    buildIndex c3fileA 4 0 0 = buildIndex c3fileC 4 0 0 :=
  c3_build_range c3fileA c3fileC 4 0 0 (by decide) (by decide)

/-- C4: opening the 23-byte archive whose EOCD (located at offset 1)
declares the central-directory start offset 1 — equal to the EOCD offset,
an input the claim says must yield an error — crashes: the captured range
is empty and the `&entries[0..4]` signature slice panics. -/
theorem c4_crash_eval :
    u32At c4file 17 = 1 ∧ locateEocd c4file = .ok 1 ∧
    openArch c4file = .crash := by decide

/-- C6 counterexample: the 26-byte archive whose EOCD declares one entry
over a captured central-directory range of only 4 bytes makes `open`
crash on the unchecked 46-byte record overlay instead of failing with a
corruption error. -/
theorem c6_counterexample :
    u16At c6file 14 = 1 ∧ u32At c6file 20 = 0 ∧ locateEocd c6file = .ok 4 ∧
    openArch c6file = .crash := by decide

/-- C6 (amended): the byte-to-integer conversions silently return 0 on a
slice of the wrong length rather than raising a corruption error, and the
directory walk performs unchecked reads: whenever the declared entry
count is positive, the captured range holds a valid leading signature but
is shorter than one 46-byte record, the walk crashes (panic or
out-of-bounds overlay read) instead of failing with a corruption
error. -/
theorem c6_unchecked_behavior :
    (∀ l : List Nat, l.length ≠ 4 → getU32 l = 0) ∧
    (∀ l : List Nat, l.length ≠ 2 → getU16 l = 0) ∧
    (∀ (f : ZFile) (o s n : Nat), 1 ≤ n → s + 4 ≤ o → o ≤ f.len → o < s + 46 →
      u32At f s = DIR_SIG → buildIndex f o s n = .crash) := by
  refine ⟨?_, ?_, ?_⟩
  · intro l hl; rw [getU32, if_neg hl]
  · intro l hl; rw [getU16, if_neg hl]
  · intro f o s n hn hs4 hol hs46 hsig
    simp only [buildIndex]
    rw [if_neg (show ¬ s > o by omega),
      if_neg (show ¬ f.len < s + (o - s) by omega)]
    have hlen : (readBytes f s (o - s)).length = o - s := readBytes_length f s (o - s)
    have hslice : sliceE (readBytes f s (o - s)) 0 4 = some (readBytes f s 4) := by
      rw [sliceE, if_pos ⟨by omega, by rw [hlen]; omega⟩]
      congr 1
      rw [List.drop_zero]
      simp only [readBytes, ← List.map_take, List.take_range]
      rw [show min 4 (o - s) = 4 from by omega]
    rw [hslice]
    show (if getU32 (readBytes f s 4) ≠ DIR_SIG then ORes.cdNotFound
      else walkDir (readBytes f s (o - s)) n 0 []) = ORes.crash
    rw [if_neg (fun hne => hne hsig)]
    cases n with
    | zero => exact absurd hn (by decide)
    | succ m =>
      rw [walkDir, if_pos (by rw [hlen]; omega)]

/-- C6 witness: the conversions default at concrete wrong-length slices,
and the walk over a 5-byte capture declaring 3 entries crashes. -/
theorem c6_unchecked_behavior_witness :
    getU32 [1, 2, 3] = 0 ∧ getU16 [7] = 0 ∧ buildIndex c6wFile 5 0 3 = .crash :=
  ⟨c6_unchecked_behavior.1 [1, 2, 3] (by decide),
   c6_unchecked_behavior.2.1 [7] (by decide),
   c6_unchecked_behavior.2.2 c6wFile 5 0 3 (by decide) (by decide) (by decide)
     (by decide) (by decide)⟩

/-! Facts about the entry extractor. -/

/-- C5 counterexample: a stored entry whose index metadata says
`compressed_size = 3` but `size = 2` extracts successfully, returning the
2 payload bytes — no corruption error is raised for the mismatch. -/
theorem c5_counterexample :
    c5entry.compressedSize = 3 ∧ c5entry.size = 2 ∧
    (getFile c5handle [97] orcNull).1 = .ok [7, 9] := by decide

/-- C5 (amended): extraction of a stored (method 0) entry is fully
described without the entry's `compressed_size`: after the local-header
checks it reads exactly `size` bytes from the payload offset, so a
`compressed_size` differing from `size` is never detected. -/
theorem c5_stored_ignores_csize (h : Handle) (p : List Nat) (orc : Oracle)
    (fe : FileEntry) (hl : lookupEntry h.entries (cleanPath p) = some fe)
    (hm : fe.method = 0) :
    (getFile h p orc).1 =
      if h.file.len < fe.startPos + 30 then .err .readFail
      else
        let hdr := decodeLocalHeader (readBytes h.file fe.startPos 30)
        if hdr.signature ≠ LOC_SIG then .err (.badLocalSig hdr.signature)
        else if hdr.method ≠ 0 ∧ hdr.method ≠ 8 then .err (.unsupportedMethod hdr.method)
        else if h.file.len < fe.startPos + 30 + hdr.nameLen + hdr.extraLen + fe.size
          then .err .readFail
        else .ok (readBytes h.file (fe.startPos + 30 + hdr.nameLen + hdr.extraLen) fe.size) := by
  simp only [getFile, openFileEntry, hl]
  by_cases h1 : h.file.len < fe.startPos + 30
  · simp [h1]
  · by_cases h2 : (decodeLocalHeader (readBytes h.file fe.startPos 30)).signature = LOC_SIG
    · by_cases h3 : ¬(decodeLocalHeader (readBytes h.file fe.startPos 30)).method = 0 ∧
          ¬(decodeLocalHeader (readBytes h.file fe.startPos 30)).method = 8
      · simp [h1, h2, h3]
      · simp [h1, h2, h3, hm, apply_ite]
    · simp [h1, h2]

/-- C5 witness: applying the stored-path characterization to the concrete
mismatched entry of `c5handle` evaluates the extraction to the 2 payload
bytes. -/
theorem c5_stored_ignores_csize_witness :
    (getFile c5handle [97] orcNull).1 = .ok [7, 9] := by
  have h := c5_stored_ignores_csize c5handle [97] orcNull c5entry (by decide) rfl
  rw [h]
  decide

/-- The DEFLATE loop only ever fails with a read error or the
decompression error. -/
theorem deflateLoop_err_shape (orc : Oracle) (f : ZFile) (d : Nat) :
    ∀ (r : Nat) (out : List Nat) (pos : Nat) (tr : List ROp) (e : GErr)
      (tr' : List ROp), deflateLoop orc f d r out pos tr = .err e tr' →
      e = .readFail ∨ e = .decompressionFailed := by
  intro r
  induction r using Nat.strong_induction_on with
  | _ r ih =>
    intro out pos tr e tr' heq
    rw [deflateLoop] at heq
    dsimp only at heq
    split at heq
    · exact absurd heq (by simp)
    · split at heq
      · injection heq with h1 h2
        exact Or.inl h1.symm
      · split at heq
        · exact absurd heq (by simp)
        · split at heq
          · exact ih _ (by omega) _ _ _ _ _ heq
          · injection heq with h1 h2
            exact Or.inr h1.symm

/-- A successful index lookup rules out the file-not-found error for
`get_file`: every later failure carries a different error. -/
theorem getFile_hit_not_notFound (h : Handle) (p : List Nat) (orc : Oracle)
    (fe : FileEntry) (hl : lookupEntry h.entries (cleanPath p) = some fe)
    (q : List Nat) :
    (getFile h p orc).1 ≠ .err (.fileNotFound q) := by
  simp only [getFile, openFileEntry, hl]
  by_cases h1 : h.file.len < fe.startPos + 30
  · simp [h1]
  · by_cases h2 : (decodeLocalHeader (readBytes h.file fe.startPos 30)).signature = LOC_SIG
    · by_cases h3 : ¬(decodeLocalHeader (readBytes h.file fe.startPos 30)).method = 0 ∧
          ¬(decodeLocalHeader (readBytes h.file fe.startPos 30)).method = 8
      · simp [h1, h2, h3]
      · by_cases hm0 : fe.method = 0
        · by_cases h4 : h.file.len < fe.startPos + 30
              + (decodeLocalHeader (readBytes h.file fe.startPos 30)).nameLen
              + (decodeLocalHeader (readBytes h.file fe.startPos 30)).extraLen + fe.size
          · simp [h1, h2, h3, hm0, h4]
          · simp [h1, h2, h3, hm0, h4]
        · by_cases hm8 : fe.method = 8
          · cases hdl : deflateLoop orc h.file
                (fe.startPos + 30 + (decodeLocalHeader (readBytes h.file fe.startPos 30)).nameLen
                  + (decodeLocalHeader (readBytes h.file fe.startPos 30)).extraLen)
                fe.compressedSize (List.replicate fe.size 0) 0 [] with
            | ok out tr => simp [h1, h2, h3, hm0, hm8, hdl]
            | err e tr =>
              rcases deflateLoop_err_shape _ _ _ _ _ _ _ _ _ hdl with rfl | rfl <;>
                simp [h1, h2, h3, hm0, hm8, hdl]
            | crash tr => simp [h1, h2, h3, hm0, hm8, hdl]
          · simp [h1, h2, h3, hm0, hm8]
    · simp [h1, h2]

/-- C9: `file_exists` (`contains`) is a total boolean query and agrees
with `get_file` (`extract`): for every handle, input path (empty,
parent-only, absolute or relative alike) and inflate oracle, it returns
`false` exactly when extraction fails with the file-not-found error for
that path. -/
theorem c9_contains_agrees_extract (h : Handle) (p : List Nat) (orc : Oracle) :
    fileExists h p = false ↔
      (getFile h p orc).1 = .err (.fileNotFound (cleanPath p)) := by
  cases hl : lookupEntry h.entries (cleanPath p) with
  | none => simp [fileExists, hl, getFile, openFileEntry]
  | some fe =>
    simp only [fileExists, hl, Option.isSome_some]
    constructor
    · intro hfe
      exact absurd hfe (by simp)
    · intro hres
      exact absurd hres (getFile_hit_not_notFound h p orc fe hl _)

/-- `get_file` never writes the index or the byte source: every branch
hands back the handle with only the transient current-entry state
changed. -/
theorem getFile_preserves (h : Handle) (p : List Nat) (orc : Oracle) :
    (getFile h p orc).2.entries = h.entries ∧ (getFile h p orc).2.file = h.file := by
  cases hl : lookupEntry h.entries (cleanPath p) with
  | none => simp [getFile, openFileEntry, hl, closeFile]
  | some fe =>
    simp only [getFile, openFileEntry, hl]
    by_cases h1 : h.file.len < fe.startPos + 30
    · simp [h1, closeFile]
    · by_cases h2 : (decodeLocalHeader (readBytes h.file fe.startPos 30)).signature = LOC_SIG
      · by_cases h3 : ¬(decodeLocalHeader (readBytes h.file fe.startPos 30)).method = 0 ∧
            ¬(decodeLocalHeader (readBytes h.file fe.startPos 30)).method = 8
        · simp [h1, h2, h3, closeFile]
        · by_cases hm0 : fe.method = 0
          · by_cases h4 : h.file.len < fe.startPos + 30
                + (decodeLocalHeader (readBytes h.file fe.startPos 30)).nameLen
                + (decodeLocalHeader (readBytes h.file fe.startPos 30)).extraLen + fe.size
            · simp [h1, h2, h3, hm0, h4, closeFile]
            · simp [h1, h2, h3, hm0, h4, closeFile]
          · by_cases hm8 : fe.method = 8
            · cases hdl : deflateLoop orc h.file
                  (fe.startPos + 30 + (decodeLocalHeader (readBytes h.file fe.startPos 30)).nameLen
                    + (decodeLocalHeader (readBytes h.file fe.startPos 30)).extraLen)
                  fe.compressedSize (List.replicate fe.size 0) 0 [] with
              | ok out tr => simp [h1, h2, h3, hm0, hm8, hdl, closeFile]
              | err e tr => simp [h1, h2, h3, hm0, hm8, hdl, closeFile]
              | crash tr => simp [h1, h2, h3, hm0, hm8, hdl, closeFile]
            · simp [h1, h2, h3, hm0, hm8, closeFile]
      · simp [h1, h2, closeFile]

/-- The result value of `get_file` depends only on the byte source and
index of the handle, never on its transient current-entry state. -/
theorem getFile_fst_congr (f : ZFile) (m : EntryMap)
    (ce ce' : Option FileEntry) (ch ch' : Option LocalHeader)
    (p : List Nat) (orc : Oracle) :
    (getFile ⟨f, m, ce, ch⟩ p orc).1 = (getFile ⟨f, m, ce', ch'⟩ p orc).1 := by
  cases hl : lookupEntry m (cleanPath p) with
  | none => simp [getFile, openFileEntry, hl]
  | some fe =>
    simp only [getFile, openFileEntry, hl]
    by_cases h1 : f.len < fe.startPos + 30
    · simp [h1]
    · simp [h1]

/-- Index and byte source survive any sequence of public calls. -/
theorem runOps_preserves (ops : List ArchOp) (h : Handle) :
    (runOps h ops).entries = h.entries ∧ (runOps h ops).file = h.file := by
  induction ops generalizing h with
  | nil => exact ⟨rfl, rfl⟩
  | cons op ops ih =>
    have hstep : (stepOp h op).entries = h.entries ∧ (stepOp h op).file = h.file := by
      cases op with
      | contains p => exact ⟨rfl, rfl⟩
      | extract p orc => exact getFile_preserves h p orc
    have hrest := ih (stepOp h op)
    exact ⟨hrest.1.trans hstep.1, hrest.2.trans hstep.2⟩

/-- Handles agreeing on byte source and index give equal `get_file`
results. -/
theorem getFile_fst_only (h h' : Handle) (hf : h'.file = h.file)
    (he : h'.entries = h.entries) (q : List Nat) (orc : Oracle) :
    (getFile h' q orc).1 = (getFile h q orc).1 := by
  obtain ⟨f, m, ce, ch⟩ := h
  obtain ⟨f', m', ce', ch'⟩ := h'
  dsimp only at hf he
  subst hf
  subst he
  exact getFile_fst_congr _ _ _ _ _ _ q orc

/-- C10: after open the directory index is immutable — no sequence of
`file_exists` (`contains`) and `get_file` (`extract`) calls, successful
or failed, changes the entry map or the byte source — and any
`get_file` call leaves the handle answering subsequent `get_file` calls
exactly as the original handle would. -/
theorem c10_index_immutable :
    (∀ (h : Handle) (ops : List ArchOp),
      (runOps h ops).entries = h.entries ∧ (runOps h ops).file = h.file) ∧
    (∀ (h : Handle) (p q : List Nat) (orc orc' : Oracle),
      (getFile (getFile h p orc).2 q orc').1 = (getFile h q orc').1) := by
  refine ⟨fun h ops => runOps_preserves ops h, fun h p q orc orc' => ?_⟩
  obtain ⟨he, hf⟩ := getFile_preserves h p orc
  exact getFile_fst_only h (getFile h p orc).2 hf he q orc'

/-- C1: a DEFLATE payload of 16385 compressed bytes spans two chunks; with
an inflate step that succeeds writing 0 bytes on the first chunk (legal
while the backend buffers bitstream state), the loop reads the second
chunk at the payload offset plus the output cursor — position 0 again —
instead of the payload offset plus the 16384 compressed bytes already
consumed.  The finish hint is withheld on the first chunk and given on
the second, as the claim states, but the read position diverges. -/
theorem c1_second_chunk_misread :
    deflateLoop orcNull bigFile 0 16385 [0, 0] 0 [] =
      .ok [0, 0] [⟨0, 16384, false⟩, ⟨0, 1, true⟩] ∧ (0 : Nat) ≠ 0 + 16384 := by
  refine ⟨?_, by decide⟩
  rw [deflateLoop]
  norm_num [bigFile, orcNull, writeAt]
  rw [deflateLoop]
  norm_num [bigFile, orcNull, writeAt]
  rw [deflateLoop]
  norm_num
